import Mathlib

/-!
Verification of the ledger-construction and gains-computation engine of
bitcoin_gains.py against its natural-language specification.

Modelling conventions (shallow embedding):
* Python `decimal.Decimal` values are modelled as exact rationals (`ℚ`).
  `Decimal.quantize(0.1 ** d)` under the default context rounds half-to-even
  at `d` decimal digits; this is `roundd` below.
* `time.struct_time` values are modelled by the six calendar components
  `(year, month, day, hour, minute, second)`; comparison of `struct_time`
  values is lexicographic on these components (`listLt` mirrors Python's
  list/tuple comparison).  `time.mktime` is modelled by the standard
  days-from-civil conversion to a second count (`Timestamp.mktime`).
* Fallible or absent values use `Option`.
-/

/-- Round a rational to the nearest integer, ties to even (the rounding mode of
Python's default `decimal` context). -/
def halfEvenZ (x : ℚ) : ℤ :=
  let f : ℤ := ⌊x⌋
  let frac : ℚ := x - f
  if frac < 1/2 then f
  else if 1/2 < frac then f + 1
  else if f % 2 = 0 then f else f + 1

/-- `roundd(x, digits)` from bitcoin_gains.py: `x.quantize(tenth**digits)`,
i.e. rounding half-to-even at `digits` decimal places. -/
def roundd (x : ℚ) (digits : ℕ) : ℚ :=
  (halfEvenZ (x * 10 ^ digits) : ℚ) / 10 ^ digits

/-- The six calendar components of a `time.struct_time` that determine its
ordering for distinct instants: `(Y, M, D, h, m, s)`. -/
structure Timestamp where
  year : ℤ
  month : ℤ
  day : ℤ
  hour : ℤ
  minute : ℤ
  second : ℤ
deriving DecidableEq

/-- Python list/tuple comparison `<` on integer lists: lexicographic, a strict
prefix is smaller. -/
def listLt : List ℤ → List ℤ → Prop
  | [], [] => False
  | [], _ :: _ => True
  | _ :: _, [] => False
  | x :: xs, y :: ys => x < y ∨ (x = y ∧ listLt xs ys)

/-- Decidability of `listLt`. -/
def decListLt : (a b : List ℤ) → Decidable (listLt a b)
  | [], [] => isFalse id
  | [], _ :: _ => isTrue trivial
  | _ :: _, [] => isFalse id
  | x :: xs, y :: ys =>
    haveI : Decidable (listLt xs ys) := decListLt xs ys
    inferInstanceAs (Decidable (x < y ∨ (x = y ∧ listLt xs ys)))

instance : (a b : List ℤ) → Decidable (listLt a b) := decListLt

/-- The component list `[Y, M, D, h, m, s]` of a timestamp, as produced by
`time.strftime('%Y %m %d %H %M %S', t).split(' ')` in `is_long_term`. -/
def Timestamp.parts (t : Timestamp) : List ℤ :=
  [t.year, t.month, t.day, t.hour, t.minute, t.second]

/-- `struct_time` comparison: lexicographic on the calendar components. -/
def Timestamp.lt (a b : Timestamp) : Prop := listLt a.parts b.parts

instance (a b : Timestamp) : Decidable (a.lt b) := by
  unfold Timestamp.lt; infer_instance

/-- Days since 1970-01-01 of a civil date (standard days-from-civil
algorithm); all divisions act on non-negative operands for the dates the
program handles. -/
def daysFromCivil (y m d : ℤ) : ℤ :=
  let y2 : ℤ := if m ≤ 2 then y - 1 else y
  let era : ℤ := (if 0 ≤ y2 then y2 else y2 - 399) / 400
  let yoe : ℤ := y2 - era * 400
  let doy : ℤ := (153 * (if 2 < m then m - 3 else m + 9) + 2) / 5 + d - 1
  let doe : ℤ := yoe * 365 + yoe / 4 - yoe / 100 + doy
  era * 146097 + doe - 719468

/-- Model of `time.mktime`: seconds represented by a timestamp (the engine
only compares differences of such values, so the epoch/zone offset is
irrelevant). -/
def Timestamp.mktime (t : Timestamp) : ℤ :=
  ((daysFromCivil t.year t.month t.day * 24 + t.hour) * 60 + t.minute) * 60 + t.second

/-- The `Lot` record of bitcoin_gains.py.  `price` is `usd / btc` (computed in
the constructor there, derived here); `transaction` is modelled as the id of
the originating event.  The field name `dissallowed_loss` keeps the source's
spelling. -/
structure Lot where
  timestamp : Timestamp
  btc : ℚ
  usd : ℚ
  transaction : ℕ
  dissallowed_loss : ℚ
deriving DecidableEq

/-- `self.price = usd / btc` set in `Lot.__init__`. -/
def Lot.price (l : Lot) : ℚ := l.usd / l.btc

/-- `Lot.split(btc)` from bitcoin_gains.py: `(None, self)` for `btc <= 0`, a
proportional head/tail split (usd and disallowed loss rounded to cents) for
`0 < btc < self.btc`, and `(self, None)` otherwise. -/
def Lot.split (l : Lot) (btc : ℚ) : Option Lot × Option Lot :=
  if btc ≤ 0 then (none, some l)
  else if btc < l.btc then
    let usd := roundd (l.price * btc) 2
    let dl := roundd (l.dissallowed_loss * btc / l.btc) 2
    (some { timestamp := l.timestamp, btc := btc, usd := usd,
            transaction := l.transaction, dissallowed_loss := dl },
     some { timestamp := l.timestamp, btc := l.btc - btc, usd := l.usd - usd,
            transaction := l.transaction, dissallowed_loss := l.dissallowed_loss - dl })
  else (some l, none)

/-- `btc` of an optional lot, reading the empty lot `∅` (Python `None`) as 0. -/
def optBtc : Option Lot → ℚ
  | none => 0
  | some l => l.btc

/-- `usd` of an optional lot, reading `∅` as 0. -/
def optUsd : Option Lot → ℚ
  | none => 0
  | some l => l.usd

/-- `dissallowed_loss` of an optional lot, reading `∅` as 0. -/
def optDl : Option Lot → ℚ
  | none => 0
  | some l => l.dissallowed_loss

/-- A lot whose `usd` is not a 2-decimal quantity; such lots arise from
user-entered dollar values and undeducted fee arithmetic. -/
def c3lot : Lot :=
  { timestamp := ⟨2020, 1, 1, 0, 0, 0⟩, btc := 1, usd := 1/200,
    transaction := 0, dissallowed_loss := 0 }

/-- C3: counterexample to the claim as stated.  For the lot with `btc = 1`,
`usd = 0.005` and `n = 1` (so `n ≥ lot.btc`), `split` returns the lot itself
as head, whose `usd = 0.005` differs from the claimed
`round(price · head.btc, 2) = 0.00`. -/
theorem C3_counterexample :
    0 < c3lot.btc
    ∧ optBtc (c3lot.split 1).1 = min 1 c3lot.btc
    ∧ optUsd (c3lot.split 1).1 ≠ roundd (c3lot.price * optBtc (c3lot.split 1).1) 2 := by
  refine ⟨by norm_num [c3lot], ?_, ?_⟩ <;>
    norm_num [c3lot, Lot.split, Lot.price, optBtc, optUsd, roundd, halfEvenZ]

/-- C3 (amended): for every lot with positive `btc` and every `n ≥ 0`,
`split n = (head, tail)` satisfies: `head.btc = min n lot.btc`; for
`n < lot.btc` the head's `usd` and disallowed loss are the 2-decimal-rounded
proportional shares; for `n ≥ lot.btc` the head is the original lot (its `usd`
equals the rounded product only when `lot.usd` is itself 2-decimal) and the
tail is empty; `split 0 = (∅, lot)`; and for all `n ∈ [0, lot.btc]` the two
parts reconstruct the original's `btc`, `usd` and `dissallowed_loss` exactly. -/
theorem C3_amended (l : Lot) (n : ℚ) (hpos : 0 < l.btc) (hn : 0 ≤ n) :
    optBtc (l.split n).1 = min n l.btc
    ∧ (n < l.btc → optUsd (l.split n).1 = roundd (l.price * n) 2
        ∧ optDl (l.split n).1 = roundd (l.dissallowed_loss * n / l.btc) 2)
    ∧ (l.btc ≤ n → (l.split n).1 = some l ∧ (l.split n).2 = none)
    ∧ l.split 0 = (none, some l)
    ∧ (n ≤ l.btc →
        optBtc (l.split n).1 + optBtc (l.split n).2 = l.btc
        ∧ optUsd (l.split n).1 + optUsd (l.split n).2 = l.usd
        ∧ optDl (l.split n).1 + optDl (l.split n).2 = l.dissallowed_loss) := by
  have hsplit0 : l.split 0 = (none, some l) := by simp [Lot.split]
  rcases eq_or_lt_of_le hn with hn0 | hn0
  · subst hn0
    refine ⟨?_, fun _ => ⟨?_, ?_⟩, fun h => absurd hpos (not_lt.mpr h), hsplit0, fun _ => ?_⟩
    · rw [hsplit0]; exact (min_eq_left hpos.le).symm
    · rw [hsplit0]; show (0:ℚ) = roundd (l.price * 0) 2
      norm_num [roundd, halfEvenZ]
    · rw [hsplit0]; show (0:ℚ) = roundd (l.dissallowed_loss * 0 / l.btc) 2
      norm_num [roundd, halfEvenZ]
    · rw [hsplit0]; simp [optBtc, optUsd, optDl]
  · rcases lt_or_le n l.btc with hlt | hge
    · have hs : l.split n =
        (some { timestamp := l.timestamp, btc := n, usd := roundd (l.price * n) 2,
                transaction := l.transaction,
                dissallowed_loss := roundd (l.dissallowed_loss * n / l.btc) 2 },
         some { timestamp := l.timestamp, btc := l.btc - n,
                usd := l.usd - roundd (l.price * n) 2,
                transaction := l.transaction,
                dissallowed_loss := l.dissallowed_loss
                  - roundd (l.dissallowed_loss * n / l.btc) 2 }) := by
        simp [Lot.split, not_le.mpr hn0, hlt]
      refine ⟨?_, fun _ => ?_, fun h => absurd h (not_le.mpr hlt), hsplit0, fun _ => ?_⟩
      · rw [hs]; exact (min_eq_left hlt.le).symm
      · rw [hs]; exact ⟨rfl, rfl⟩
      · rw [hs]
        refine ⟨?_, ?_, ?_⟩ <;> simp only [optBtc, optUsd, optDl] <;> ring
    · have hs : l.split n = (some l, none) := by
        simp [Lot.split, not_le.mpr hn0, not_lt.mpr hge]
      refine ⟨?_, fun h => absurd h (not_lt.mpr hge), fun _ => ?_, hsplit0, fun _ => ?_⟩
      · rw [hs]; exact (min_eq_right hge).symm
      · rw [hs]; exact ⟨rfl, rfl⟩
      · rw [hs]; simp [optBtc, optUsd, optDl]

/-- A well-behaved lot used to instantiate `C3_amended`. -/
def c3wlot : Lot :=
  { timestamp := ⟨2020, 1, 1, 0, 0, 0⟩, btc := 2, usd := 10,
    transaction := 0, dissallowed_loss := 1 }

/-- Witness for `C3_amended` at the concrete lot `c3wlot` and `n = 1`. -/
theorem C3_witness :
    ((0:ℚ) < c3wlot.btc ∧ (0:ℚ) ≤ 1)
    ∧ (optBtc (c3wlot.split 1).1 = min 1 c3wlot.btc
      ∧ ((1:ℚ) < c3wlot.btc → optUsd (c3wlot.split 1).1 = roundd (c3wlot.price * 1) 2
          ∧ optDl (c3wlot.split 1).1 = roundd (c3wlot.dissallowed_loss * 1 / c3wlot.btc) 2)
      ∧ (c3wlot.btc ≤ 1 → (c3wlot.split 1).1 = some c3wlot ∧ (c3wlot.split 1).2 = none)
      ∧ c3wlot.split 0 = (none, some c3wlot)
      ∧ ((1:ℚ) ≤ c3wlot.btc →
          optBtc (c3wlot.split 1).1 + optBtc (c3wlot.split 1).2 = c3wlot.btc
          ∧ optUsd (c3wlot.split 1).1 + optUsd (c3wlot.split 1).2 = c3wlot.usd
          ∧ optDl (c3wlot.split 1).1 + optDl (c3wlot.split 1).2 = c3wlot.dissallowed_loss)) :=
  ⟨⟨by norm_num [c3wlot], by norm_num⟩,
   C3_amended c3wlot 1 (by norm_num [c3wlot]) (by norm_num)⟩

/-- `plus_one_year` from `is_long_term`: increment the year component of the
parts list, without any calendar validation. -/
def plus_one_year : List ℤ → List ℤ
  | [] => []
  | y :: rest => (y + 1) :: rest

/-- `is_long_term(buy, sell)` from bitcoin_gains.py: Python list comparison of
the buy timestamp's parts with year incremented against the sell timestamp's
parts. -/
def is_long_term (buy sell : Lot) : Prop :=
  listLt (plus_one_year buy.timestamp.parts) sell.timestamp.parts

instance (buy sell : Lot) : Decidable (is_long_term buy sell) := by
  unfold is_long_term; infer_instance

/-- Lot bought 2019-02-28 00:00:00. -/
def c4buy : Lot := { timestamp := ⟨2019, 2, 28, 0, 0, 0⟩, btc := 1, usd := 100, transaction := 0, dissallowed_loss := 0 }

/-- Lot sold 2020-02-28 00:00:00. -/
def c4sellFeb28 : Lot := { timestamp := ⟨2020, 2, 28, 0, 0, 0⟩, btc := 1, usd := 500, transaction := 1, dissallowed_loss := 0 }

/-- Lot sold 2020-02-29 00:00:00. -/
def c4sellFeb29 : Lot := { timestamp := ⟨2020, 2, 29, 0, 0, 0⟩, btc := 1, usd := 500, transaction := 2, dissallowed_loss := 0 }

/-- Lot bought on leap day 2020-02-29. -/
def c4leapBuy : Lot := { timestamp := ⟨2020, 2, 29, 0, 0, 0⟩, btc := 1, usd := 100, transaction := 3, dissallowed_loss := 0 }

/-- Lot sold 2021-03-01, after the (invalid) incremented date 2021-02-29. -/
def c4leapSell : Lot := { timestamp := ⟨2021, 3, 1, 0, 0, 0⟩, btc := 1, usd := 500, transaction := 4, dissallowed_loss := 0 }

/-- C4: `is_long_term(buy, sell)` holds iff the buy timestamp's components
with year incremented are elementwise-lexicographically less than the sell
timestamp's components; no calendar validation of the incremented date occurs
(the comparison for a 2020-02-29 buy uses the nonexistent date 2021-02-29).
In particular: buy 2019-02-28, sell 2020-02-28 (same time of day) is not
long-term, while sell 2020-02-29 is. -/
theorem C4_confirmed :
    (∀ buy sell : Lot,
      is_long_term buy sell ↔
        (buy.timestamp.year + 1 < sell.timestamp.year ∨
         (buy.timestamp.year + 1 = sell.timestamp.year ∧
          (buy.timestamp.month < sell.timestamp.month ∨
           (buy.timestamp.month = sell.timestamp.month ∧
            (buy.timestamp.day < sell.timestamp.day ∨
             (buy.timestamp.day = sell.timestamp.day ∧
              (buy.timestamp.hour < sell.timestamp.hour ∨
               (buy.timestamp.hour = sell.timestamp.hour ∧
                (buy.timestamp.minute < sell.timestamp.minute ∨
                 (buy.timestamp.minute = sell.timestamp.minute ∧
                  buy.timestamp.second < sell.timestamp.second)))))))))))
    ∧ ¬ is_long_term c4buy c4sellFeb28
    ∧ is_long_term c4buy c4sellFeb29
    ∧ is_long_term c4leapBuy c4leapSell := by
  refine ⟨fun buy sell => ?_, by decide, by decide, by decide⟩
  simp [is_long_term, plus_one_year, Timestamp.parts, listLt]

/-- The transaction `type` strings used by the engine. -/
inductive TxType
  | deposit
  | withdraw
  | trade
  | transfer
  | transfer_out
  | gift
  | fee
deriving DecidableEq

/-- The `Transaction` record of bitcoin_gains.py (the fields relevant to
ordering, equality and transfer matching).  `id` is `None` or a string; the
`parser`, `price` and `info` fields play no role in the claims. -/
structure Transaction where
  timestamp : Timestamp
  type : TxType
  btc : ℚ
  usd : ℚ
  fee_usd : ℚ
  fee_btc : ℚ
  account : String
  dest_account : Option String
  id : Option String
  txid : Option String
deriving DecidableEq

/-- Python `str(id)`: the string itself, or `"None"` for `None`. -/
def idStr : Option String → String
  | none => "None"
  | some s => s

/-- `Transaction.__eq__`: equality of `timestamp`, `btc` and `id` only. -/
def Transaction.eqT (l r : Transaction) : Prop :=
  l.timestamp = r.timestamp ∧ l.btc = r.btc ∧ l.id = r.id

instance (l r : Transaction) : Decidable (l.eqT r) := by
  unfold Transaction.eqT; infer_instance

/-- `Transaction.__lt__`: primarily by timestamp; at equal timestamps a
`transfer` into the other event's account is ordered by the sign of its
`btc`; otherwise by `(descending btc, ascending str(id))`. -/
def Transaction.lt (l r : Transaction) : Prop :=
  if l.timestamp = r.timestamp then
    if l.type = TxType.transfer ∧ l.dest_account = some r.account then
      l.btc < 0
    else if r.type = TxType.transfer ∧ r.dest_account = some l.account then
      0 < r.btc
    else
      r.btc < l.btc ∨ (r.btc = l.btc ∧ idStr l.id < idStr r.id)
  else Timestamp.lt l.timestamp r.timestamp

instance (l r : Transaction) : Decidable (l.lt r) := by
  unfold Transaction.lt; infer_instance

/-- Transfer from account A into account B (negative btc), at a fixed time. -/
def c2a : Transaction :=
  { timestamp := ⟨2020, 1, 1, 12, 0, 0⟩, type := TxType.transfer, btc := -1, usd := 0,
    fee_usd := 0, fee_btc := 0, account := "A", dest_account := some "B",
    id := some "a", txid := none }

/-- Transfer from account B into account A (negative btc), same time. -/
def c2b : Transaction :=
  { timestamp := ⟨2020, 1, 1, 12, 0, 0⟩, type := TxType.transfer, btc := -1, usd := 0,
    fee_usd := 0, fee_btc := 0, account := "B", dest_account := some "A",
    id := some "b", txid := none }

/-- Transfer out of account A into account X, same time. -/
def c2x : Transaction :=
  { timestamp := ⟨2020, 1, 1, 12, 0, 0⟩, type := TxType.transfer, btc := -1, usd := 0,
    fee_usd := 0, fee_btc := 0, account := "A", dest_account := some "X",
    id := some "x", txid := none }

/-- Deposit of 10 btc to account X, same time. -/
def c2y : Transaction :=
  { timestamp := ⟨2020, 1, 1, 12, 0, 0⟩, type := TxType.deposit, btc := 10, usd := -100,
    fee_usd := 0, fee_btc := 0, account := "X", dest_account := none,
    id := some "y", txid := none }

/-- Deposit of 5 btc to account Y, same time. -/
def c2z : Transaction :=
  { timestamp := ⟨2020, 1, 1, 12, 0, 0⟩, type := TxType.deposit, btc := 5, usd := -50,
    fee_usd := 0, fee_btc := 0, account := "Y", dest_account := none,
    id := some "z", txid := none }

/-- C2: counterexample to the claim as stated.  `c2a` and `c2b` are distinct
(non-equal) events with `c2a < c2b` and `c2b < c2a` simultaneously, so
"exactly one of a < b, b < a" fails; and `c2x < c2y < c2z < c2x` is a cycle,
so the relation is not transitive. -/
theorem C2_counterexample :
    (¬ Transaction.eqT c2a c2b) ∧ Transaction.lt c2a c2b ∧ Transaction.lt c2b c2a
    ∧ Transaction.lt c2x c2y ∧ Transaction.lt c2y c2z ∧ Transaction.lt c2z c2x := by
  decide

/-- `Timestamp.lt` unfolded to componentwise lexicographic comparison. -/
theorem tsLt_iff (a b : Timestamp) :
    a.lt b ↔ (a.year < b.year ∨ (a.year = b.year ∧
      (a.month < b.month ∨ (a.month = b.month ∧
        (a.day < b.day ∨ (a.day = b.day ∧
          (a.hour < b.hour ∨ (a.hour = b.hour ∧
            (a.minute < b.minute ∨ (a.minute = b.minute ∧
              a.second < b.second)))))))))) := by
  simp [Timestamp.lt, Timestamp.parts, listLt]

/-- `Timestamp.lt` is irreflexive. -/
theorem tsLt_irrefl (a : Timestamp) : ¬ a.lt a := by
  simp [tsLt_iff]

/-- `Timestamp.lt` is transitive. -/
theorem tsLt_trans {a b c : Timestamp} (h1 : a.lt b) (h2 : b.lt c) : a.lt c := by
  rw [tsLt_iff] at *
  omega

/-- On distinct timestamps, exactly one direction of `Timestamp.lt` holds. -/
theorem tsLt_iff_not_of_ne {a b : Timestamp} (h : a ≠ b) : a.lt b ↔ ¬ b.lt a := by
  cases a; cases b
  simp only [ne_eq, Timestamp.mk.injEq] at h
  rw [tsLt_iff, tsLt_iff]
  simp only [Timestamp.mk.injEq]
  omega

/-- Neither event of the pair is a `transfer` pointed at the other's account,
so the tie-break falls through to `(descending btc, ascending str(id))`. -/
def plainTie (a b : Transaction) : Prop :=
  ¬(a.type = TxType.transfer ∧ a.dest_account = some b.account)
  ∧ ¬(b.type = TxType.transfer ∧ b.dest_account = some a.account)

instance (a b : Transaction) : Decidable (plainTie a b) := by
  unfold plainTie; infer_instance

/-- `plainTie` is symmetric. -/
theorem plainTie_symm {a b : Transaction} (h : plainTie a b) : plainTie b a :=
  ⟨h.2, h.1⟩

/-- On distinct timestamps `Transaction.lt` is timestamp comparison. -/
theorem txLt_of_ts_ne {a b : Transaction} (h : a.timestamp ≠ b.timestamp) :
    Transaction.lt a b ↔ Timestamp.lt a.timestamp b.timestamp := by
  unfold Transaction.lt
  rw [if_neg h]

/-- At equal timestamps with no transfer tie-break, `Transaction.lt` is the
`(descending btc, ascending str(id))` comparison. -/
theorem txLt_of_ts_eq_plain {a b : Transaction} (h : a.timestamp = b.timestamp)
    (hp : plainTie a b) :
    Transaction.lt a b ↔ (b.btc < a.btc ∨ (b.btc = a.btc ∧ idStr a.id < idStr b.id)) := by
  unfold Transaction.lt
  rw [if_pos h, if_neg hp.1, if_neg hp.2]

/-- C2 (amended): the comparison is decided primarily by timestamp; when
timestamps tie, a `transfer` whose `dest_account` equals the other event's
`account` sorts by the sign of its `btc` (left operand checked first), and
otherwise events are ordered by `(descending btc, ascending stringified id)`.
The relation is a strict total order only away from the transfer tie-break:
for pairs distinct in `(timestamp, btc, str(id))` in which neither event is a
transfer into the other's account at a tied timestamp, exactly one of
`a < b`, `b < a` holds, and on such events the relation is transitive (the
counterexample shows both properties fail in general). -/
theorem C2_amended :
    (∀ a b : Transaction, a.timestamp ≠ b.timestamp →
      (Transaction.lt a b ↔ Timestamp.lt a.timestamp b.timestamp))
    ∧ (∀ a b : Transaction, a.timestamp = b.timestamp →
        a.type = TxType.transfer → a.dest_account = some b.account →
        (Transaction.lt a b ↔ a.btc < 0))
    ∧ (∀ a b : Transaction, a.timestamp = b.timestamp →
        ¬(a.type = TxType.transfer ∧ a.dest_account = some b.account) →
        b.type = TxType.transfer → b.dest_account = some a.account →
        (Transaction.lt a b ↔ 0 < b.btc))
    ∧ (∀ a b : Transaction, a.timestamp = b.timestamp → plainTie a b →
        (Transaction.lt a b ↔ (b.btc < a.btc ∨ (b.btc = a.btc ∧ idStr a.id < idStr b.id))))
    ∧ (∀ a b : Transaction, plainTie a b →
        ¬(a.timestamp = b.timestamp ∧ a.btc = b.btc ∧ idStr a.id = idStr b.id) →
        (Transaction.lt a b ↔ ¬ Transaction.lt b a))
    ∧ (∀ a b c : Transaction, plainTie a b → plainTie b c → plainTie a c →
        Transaction.lt a b → Transaction.lt b c → Transaction.lt a c) := by
  refine ⟨?_, ?_, ?_, ?_, ?_, ?_⟩
  · exact fun a b h => txLt_of_ts_ne h
  · intro a b h ht hd
    unfold Transaction.lt
    rw [if_pos h, if_pos ⟨ht, hd⟩]
  · intro a b h hn ht hd
    unfold Transaction.lt
    rw [if_pos h, if_neg hn, if_pos ⟨ht, hd⟩]
  · exact fun a b h hp => txLt_of_ts_eq_plain h hp
  · intro a b hp hdist
    by_cases hts : a.timestamp = b.timestamp
    · have hd2 : ¬(a.btc = b.btc ∧ idStr a.id = idStr b.id) := fun hc => hdist ⟨hts, hc⟩
      rw [txLt_of_ts_eq_plain hts hp, txLt_of_ts_eq_plain hts.symm (plainTie_symm hp)]
      constructor
      · rintro (h1 | ⟨h1, h2⟩)
        · rintro (h3 | ⟨h3, h4⟩)
          · exact absurd h3 (asymm h1)
          · exact absurd h3 (ne_of_gt h1)
        · rintro (h3 | ⟨h3, h4⟩)
          · exact absurd (h1 ▸ h3) (lt_irrefl _)
          · exact absurd h4 (asymm h2)
      · intro hn
        rcases lt_trichotomy a.btc b.btc with h1 | h1 | h1
        · exact absurd (Or.inl h1) hn
        · rcases lt_trichotomy (idStr a.id) (idStr b.id) with h2 | h2 | h2
          · exact Or.inr ⟨h1.symm, h2⟩
          · exact absurd ⟨h1, h2⟩ hd2
          · exact absurd (Or.inr ⟨h1, h2⟩) hn
        · exact Or.inl h1
    · rw [txLt_of_ts_ne hts, txLt_of_ts_ne (Ne.symm hts)]
      exact tsLt_iff_not_of_ne hts
  · intro a b c hab hbc hac h1 h2
    by_cases hts1 : a.timestamp = b.timestamp <;> by_cases hts2 : b.timestamp = c.timestamp
    · have hts3 : a.timestamp = c.timestamp := hts1.trans hts2
      rw [txLt_of_ts_eq_plain hts1 hab] at h1
      rw [txLt_of_ts_eq_plain hts2 hbc] at h2
      rw [txLt_of_ts_eq_plain hts3 hac]
      rcases h1 with h1 | ⟨h1, h1'⟩ <;> rcases h2 with h2 | ⟨h2, h2'⟩
      · exact Or.inl (lt_trans h2 h1)
      · exact Or.inl (h2 ▸ h1)
      · exact Or.inl (h1 ▸ h2)
      · exact Or.inr ⟨h2.trans h1, lt_trans h1' h2'⟩
    · have hts3 : a.timestamp ≠ c.timestamp := fun hc => hts2 (hts1 ▸ hc)
      rw [txLt_of_ts_ne hts2] at h2
      rw [txLt_of_ts_ne hts3]
      rw [hts1]
      exact h2
    · have hts3 : a.timestamp ≠ c.timestamp := fun hc => hts1 (hts2 ▸ hc.symm).symm
      rw [txLt_of_ts_ne hts1] at h1
      rw [txLt_of_ts_ne hts3]
      rw [← hts2]
      exact h1
    · rw [txLt_of_ts_ne hts1] at h1
      rw [txLt_of_ts_ne hts2] at h2
      have h3 := tsLt_trans h1 h2
      have hts3 : a.timestamp ≠ c.timestamp := by
        intro hc
        rw [hc] at h3
        exact tsLt_irrefl _ h3
      rw [txLt_of_ts_ne hts3]
      exact h3

/-- Witness for `C2_amended`: instantiate the totality clause at the two
concrete plain deposits `c2y`, `c2z` of the counterexample. -/
theorem C2_witness :
    (plainTie c2y c2z
      ∧ ¬(c2y.timestamp = c2z.timestamp ∧ c2y.btc = c2z.btc ∧ idStr c2y.id = idStr c2z.id))
    ∧ (Transaction.lt c2y c2z ↔ ¬ Transaction.lt c2z c2y) :=
  ⟨⟨by decide, by decide⟩,
   C2_amended.2.2.2.2.1 c2y c2z (by decide) (by decide)⟩

/-- Python `list.remove(v)` on the ledger: delete the first element that
compares equal to `v` under `Transaction.__eq__` (no-op if none does; the
engine only removes elements known to be present). -/
def removeFirst : List Transaction → Transaction → List Transaction
  | [], _ => []
  | x :: rest, v => if x.eqT v then rest else x :: removeFirst rest v

/-- Python aliasing of the mutated withdrawal: the first element that
compares equal to `old` is replaced by `new` (the ledger holds the same
object that `match_transactions` mutates in place). -/
def replaceFirst : List Transaction → Transaction → Transaction → List Transaction
  | [], _, _ => []
  | x :: rest, old, new => if x.eqT old then new :: rest else x :: replaceFirst rest old new

/-- C10: `Transaction.__eq__` compares exactly `(timestamp, btc, id)` —
independent of `type`, `usd`, `account`, fees and `txid` — and consequently
`list.remove` (as used by the transfer matcher) removes the first ledger
element agreeing with the removed event on those three fields. -/
theorem C10_confirmed :
    (∀ a b : Transaction,
      a.eqT b ↔ (a.timestamp = b.timestamp ∧ a.btc = b.btc ∧ a.id = b.id))
    ∧ (∀ (l1 l2 : List Transaction) (e w : Transaction),
        (∀ x ∈ l1, ¬(x.timestamp = w.timestamp ∧ x.btc = w.btc ∧ x.id = w.id)) →
        (e.timestamp = w.timestamp ∧ e.btc = w.btc ∧ e.id = w.id) →
        removeFirst (l1 ++ e :: l2) w = l1 ++ l2) := by
  constructor
  · exact fun a b => Iff.rfl
  · intro l1 l2 e w h1 h2
    induction l1 with
    | nil => simp [removeFirst, Transaction.eqT, h2]
    | cons x rest ih =>
      have hx : ¬ x.eqT w := h1 x (List.mem_cons_self x rest)
      simp only [List.cons_append, removeFirst, if_neg hx, List.cons.injEq, true_and]
      exact ih fun y hy => h1 y (List.mem_cons_of_mem x hy)

/-- A deposit differing from the withdrawal `c10w` in `btc` (not removed). -/
def c10other : Transaction :=
  { timestamp := ⟨2020, 1, 1, 0, 0, 0⟩, type := TxType.deposit, btc := 2, usd := -20,
    fee_usd := 0, fee_btc := 0, account := "B", dest_account := none,
    id := some "k", txid := none }

/-- The withdrawal the matcher removes. -/
def c10w : Transaction :=
  { timestamp := ⟨2020, 1, 1, 0, 0, 0⟩, type := TxType.withdraw, btc := -1, usd := 0,
    fee_usd := 0, fee_btc := 0, account := "A", dest_account := none,
    id := some "w", txid := some "t" }

/-- A ledger element agreeing with `c10w` on `(timestamp, btc, id)` but with
different `type`, `usd`, `account`, fees and `txid`. -/
def c10e : Transaction :=
  { timestamp := ⟨2020, 1, 1, 0, 0, 0⟩, type := TxType.trade, btc := -1, usd := 55,
    fee_usd := 1, fee_btc := 0, account := "C", dest_account := none,
    id := some "w", txid := none }

/-- Witness for `C10_confirmed`: removing `c10w` from `[c10other, c10e]`
removes `c10e`, which matches it on the three fields only. -/
theorem C10_witness :
    ((∀ x ∈ [c10other], ¬(x.timestamp = c10w.timestamp ∧ x.btc = c10w.btc ∧ x.id = c10w.id))
      ∧ (c10e.timestamp = c10w.timestamp ∧ c10e.btc = c10w.btc ∧ c10e.id = c10w.id))
    ∧ removeFirst ([c10other] ++ c10e :: []) c10w = [c10other] ++ [] :=
  ⟨⟨by decide, by decide⟩,
   C10_confirmed.2 [c10other] [] c10e c10w (by decide) (by decide)⟩

/-- The pass-2 deposit multimap entry for a txid: deposits carrying that txid
in ledger order (only truthy txids are keyed, so the empty string maps to
nothing). -/
def txidDeposits (all : List Transaction) (tx : String) : List Transaction :=
  if tx = "" then []
  else all.filter (fun t => decide (t.type = TxType.deposit ∧ t.txid = some tx))

/-- The withdrawal after `t.btc += fee` with `fee = -(t.btc + candidate.btc)`
(in-place mutation in the source). -/
def mergedWithdrawal (w d : Transaction) : Transaction :=
  { w with btc := w.btc + -(w.btc + d.btc) }

/-- The transfer `replace_with_transfer` builds in pass 2:
`Transaction(w.timestamp, 'transfer', w.btc, 0, fee_btc=fee, txid=w.txid)`
with `w.btc` already mutated, source account `w.account` and destination the
deposit's account. -/
def mergedTransfer (w d : Transaction) : Transaction :=
  { timestamp := w.timestamp, type := TxType.transfer,
    btc := (mergedWithdrawal w d).btc, usd := 0,
    fee_usd := 0, fee_btc := -(w.btc + d.btc), account := w.account,
    dest_account := some d.account, id := none, txid := w.txid }

/-- The body of pass 2 of `match_transactions` for one withdrawal `w`:
if `w` has a txid shared by exactly one deposit, mutate `w`, remove both from
the ledger and append the transfer; on multiple (or zero) matches, leave the
ledger unchanged. -/
def pass2_body (all : List Transaction) (w : Transaction) : List Transaction :=
  if w.type = TxType.withdraw ∧ w.btc ≠ 0 then
    match w.txid with
    | some tx =>
      match txidDeposits all tx with
      | [candidate] =>
        removeFirst
          (removeFirst (replaceFirst all w (mergedWithdrawal w candidate))
            (mergedWithdrawal w candidate)) candidate
          ++ [mergedTransfer w candidate]
      | _ => all
    | none => all
  else all

/-- The 1.0 BTC withdrawal of the claim's concrete case. -/
def c5w : Transaction :=
  { timestamp := ⟨2020, 3, 1, 10, 0, 0⟩, type := TxType.withdraw, btc := -1, usd := 0,
    fee_usd := 0, fee_btc := 0, account := "A", dest_account := none,
    id := some "w1", txid := some "tx1" }

/-- The 0.999 BTC deposit sharing the txid. -/
def c5d : Transaction :=
  { timestamp := ⟨2020, 3, 1, 11, 0, 0⟩, type := TxType.deposit, btc := 999/1000, usd := 0,
    fee_usd := 0, fee_btc := 0, account := "B", dest_account := none,
    id := some "d1", txid := some "tx1" }

/-- The transfer the code actually produces for `c5w`/`c5d`. -/
def c5tr : Transaction :=
  { timestamp := ⟨2020, 3, 1, 10, 0, 0⟩, type := TxType.transfer, btc := -(999/1000), usd := 0,
    fee_usd := 0, fee_btc := 1/1000, account := "A", dest_account := some "B",
    id := none, txid := some "tx1" }

/-- C5: counterexample to the claim as stated.  Pairing the 1.0 BTC
withdrawal with the 0.999 BTC deposit produces a transfer with
`fee_btc = 0.001` as claimed, but its `btc` field is `-0.999` (the negated
deposited amount), not `1.0`. -/
theorem C5_counterexample :
    pass2_body [c5w, c5d] c5w = [c5tr]
    ∧ c5tr.fee_btc = 1/1000
    ∧ c5tr.btc = -(999/1000)
    ∧ c5tr.btc ≠ 1 ∧ c5tr.btc ≠ -1 := by
  refine ⟨?_, rfl, rfl, by norm_num [c5tr], by norm_num [c5tr]⟩
  have key : pass2_body [c5w, c5d] c5w
      = removeFirst
          (removeFirst (replaceFirst [c5w, c5d] c5w (mergedWithdrawal c5w c5d))
            (mergedWithdrawal c5w c5d)) c5d
          ++ [mergedTransfer c5w c5d] := rfl
  rw [key]
  norm_num [removeFirst, replaceFirst, Transaction.eqT,
    mergedWithdrawal, mergedTransfer, c5w, c5d, c5tr, Transaction.mk.injEq]

/-- C5 (amended): for every withdrawal with nonzero `btc` whose txid is
shared by exactly one remaining deposit `d`, the pair is replaced by a single
transfer with `fee_btc = -(w.btc + d.btc)`; its `btc` field is the mutated
withdrawal amount `w.btc + fee = -d.btc` — the negated amount received — so
the amount actually sent is `btc - fee_btc = w.btc` (in the concrete
1.0 / 0.999 case: `fee_btc = 0.001`, `btc = -0.999`, not `1.0`).  When
several deposits share the txid, no merge occurs. -/
theorem C5_amended :
    (∀ (all : List Transaction) (w d : Transaction) (tx : String),
      w.type = TxType.withdraw → w.btc ≠ 0 → w.txid = some tx →
      txidDeposits all tx = [d] →
      pass2_body all w
        = removeFirst
            (removeFirst (replaceFirst all w (mergedWithdrawal w d)) (mergedWithdrawal w d)) d
            ++ [mergedTransfer w d]
        ∧ (mergedTransfer w d).fee_btc = -(w.btc + d.btc)
        ∧ (mergedTransfer w d).btc = -d.btc
        ∧ (mergedTransfer w d).btc - (mergedTransfer w d).fee_btc = w.btc
        ∧ (mergedTransfer w d).type = TxType.transfer
        ∧ (mergedTransfer w d).account = w.account
        ∧ (mergedTransfer w d).dest_account = some d.account)
    ∧ (∀ (all : List Transaction) (w : Transaction) (tx : String)
        (d1 d2 : Transaction) (rest : List Transaction),
      w.txid = some tx → txidDeposits all tx = d1 :: d2 :: rest →
      pass2_body all w = all) := by
  constructor
  · intro all w d tx hty hbtc htx hdep
    refine ⟨?_, rfl, ?_, ?_, rfl, rfl, rfl⟩
    · unfold pass2_body
      rw [if_pos ⟨hty, hbtc⟩, htx]
      show (match txidDeposits all tx with
        | [candidate] =>
          removeFirst
            (removeFirst (replaceFirst all w (mergedWithdrawal w candidate))
              (mergedWithdrawal w candidate)) candidate
            ++ [mergedTransfer w candidate]
        | _ => all) = _
      rw [hdep]
    · show w.btc + -(w.btc + d.btc) = -d.btc
      ring
    · show w.btc + -(w.btc + d.btc) - -(w.btc + d.btc) = w.btc
      ring
  · intro all w tx d1 d2 rest htx hdep
    unfold pass2_body
    by_cases hc : w.type = TxType.withdraw ∧ w.btc ≠ 0
    · rw [if_pos hc, htx]
      show (match txidDeposits all tx with
        | [candidate] =>
          removeFirst
            (removeFirst (replaceFirst all w (mergedWithdrawal w candidate))
              (mergedWithdrawal w candidate)) candidate
            ++ [mergedTransfer w candidate]
        | _ => all) = _
      rw [hdep]
    · rw [if_neg hc]

/-- Witness for `C5_amended`: the merge clause instantiated at the
1.0-withdrawal / 0.999-deposit ledger of the counterexample. -/
theorem C5_witness :
    (c5w.type = TxType.withdraw ∧ c5w.btc ≠ 0 ∧ c5w.txid = some "tx1"
      ∧ txidDeposits [c5w, c5d] "tx1" = [c5d])
    ∧ (pass2_body [c5w, c5d] c5w
        = removeFirst
            (removeFirst (replaceFirst [c5w, c5d] c5w (mergedWithdrawal c5w c5d))
              (mergedWithdrawal c5w c5d)) c5d
            ++ [mergedTransfer c5w c5d]
      ∧ (mergedTransfer c5w c5d).fee_btc = -(c5w.btc + c5d.btc)
      ∧ (mergedTransfer c5w c5d).btc = -c5d.btc
      ∧ (mergedTransfer c5w c5d).btc - (mergedTransfer c5w c5d).fee_btc = c5w.btc
      ∧ (mergedTransfer c5w c5d).type = TxType.transfer
      ∧ (mergedTransfer c5w c5d).account = c5w.account
      ∧ (mergedTransfer c5w c5d).dest_account = some c5d.account) :=
  ⟨⟨rfl, by norm_num [c5w], rfl, rfl⟩,
   C5_amended.1 [c5w, c5d] c5w c5d "tx1" rfl (by norm_num [c5w]) rfl rfl⟩

/-- The slice of the replay-loop state that the acquisition branch
(lines around `push_lot` and the wash-sale loop in `main`) touches, for one
fixed account: the wash queue, the running aggregates, the account's
inventory (FIFO view: `push` appends) and its running balance. -/
structure WashState where
  recent_sells : List (Lot × Lot)
  gains : ℚ
  dissallowed_loss : ℚ
  total_cost : ℚ
  total_buy : ℚ
  lots : List Lot
  acct_btc : ℚ
deriving DecidableEq

/-- `push_lot(account, lot)` from `main`: split the lot by the negated
current balance; the head covers an outstanding short (returned as a gain
`-to_sell.usd`), the tail is pushed into the inventory. -/
def push_lot (st : WashState) (lot : Lot) : WashState × ℚ :=
  let sp := lot.split (-st.acct_btc)
  let st1 := match sp.2 with
    | some to_hold => { st with lots := st.lots ++ [to_hold] }
    | none => st
  match sp.1 with
  | some to_sell => (st1, -to_sell.usd)
  | none => (st1, 0)

/-- One iteration of the wash-sale `while recent_sells and buy` loop for an
acquisition at time `now`: pop the oldest `(recent_sell, recent_sell_buy)`
pair; drop it if the sell is older than 30 days or was not at a loss
(`recent_sell_buy.usd < recent_sell.usd`); otherwise split the pair and the
buy at the common amount, re-head any remainder, carry the loss onto the
wash buy and deposit it via `push_lot`.  Returns the new state and the
remaining buy (`none` once fully consumed). -/
def washIter (now : Timestamp) (st : WashState) (buy : Lot) : WashState × Option Lot :=
  match st.recent_sells with
  | [] => (st, some buy)
  | (recent_sell, recent_sell_buy) :: rest =>
    let st1 := { st with recent_sells := rest }
    if recent_sell.timestamp.mktime < now.mktime - 30*24*60*60 then (st1, some buy)
    else if recent_sell_buy.usd < recent_sell.usd then (st1, some buy)
    else
      let sp := recent_sell.split buy.btc
      let spb := recent_sell_buy.split buy.btc
      let st2 := match sp.2, spb.2 with
        | some rsRem, some rsbRem =>
          { st1 with recent_sells := (rsRem, rsbRem) :: st1.recent_sells }
        | _, _ => st1
      match sp.1 with
      | some recent_sell1 =>
        let spBuy := buy.split recent_sell1.btc
        match sp.1, spb.1, spBuy.1 with
        | some recent_sell2, some recent_sell_buy2, some wash_buy0 =>
          let loss := recent_sell_buy2.usd - recent_sell2.usd
          let st3 := { st2 with gains := st2.gains + loss,
                                dissallowed_loss := st2.dissallowed_loss + loss }
          let wash_buy := { wash_buy0 with dissallowed_loss := loss,
                                           usd := wash_buy0.usd + loss }
          let pl := push_lot st3 wash_buy
          ({ pl.1 with gains := pl.1.gains + pl.2,
                       total_cost := pl.1.total_cost + (wash_buy.usd - loss) },
           spBuy.2)
        | _, _, _ => (st2, spBuy.2)
      | none => (st2, some buy)

/-- The full `while recent_sells and buy` loop, fuelled (each iteration pops
one pair; an iteration that re-heads a remainder has consumed the whole buy,
so `length + 1` fuel always suffices). -/
def washLoop : ℕ → Timestamp → WashState → Option Lot → WashState × Option Lot
  | 0, _, st, buy => (st, buy)
  | fuel+1, now, st, buy =>
    match buy, st.recent_sells with
    | some b, _ :: _ =>
      let r := washIter now st b
      washLoop fuel now r.1 r.2
    | _, _ => (st, buy)

/-- If the wash queue is empty the loop does not run. -/
theorem washLoop_nil (fuel : ℕ) (now : Timestamp) (st : WashState) (b : Option Lot)
    (h : st.recent_sells = []) : washLoop fuel now st b = (st, b) := by
  cases fuel with
  | zero => rfl
  | succ n =>
    cases b with
    | none => rfl
    | some lot => simp [washLoop, h]

/-- The acquisition (`btc > 0`) branch of the replay loop in `main`:
`account_btc[t.account] += btc` and `total_buy -= usd` first, then the
wash-sale loop over `recent_sells` (cleared under `nowash`), then the
final `push_lot` of any remaining buy together with
`total_cost += buy.usd`. -/
def applyAcquisition (now : Timestamp) (st : WashState) (btc usd : ℚ) (tid : ℕ)
    (nowash : Bool) : WashState :=
  let st0 := { st with acct_btc := st.acct_btc + btc, total_buy := st.total_buy - usd }
  let buy : Lot := { timestamp := now, btc := btc, usd := -usd,
                     transaction := tid, dissallowed_loss := 0 }
  let st1 := if nowash then { st0 with recent_sells := [] } else st0
  let r := washLoop (st1.recent_sells.length + 1) now st1 (some buy)
  match r.2 with
  | some b =>
    if r.1.recent_sells = [] then
      let pl := push_lot r.1 b
      { pl.1 with gains := pl.1.gains + pl.2, total_cost := pl.1.total_cost + b.usd }
    else r.1
  | none => r.1

/-- Total btc held in an inventory. -/
def sumBtc (lots : List Lot) : ℚ := (lots.map Lot.btc).sum

/-- The claimed balance invariant for one account: when the balance is
non-negative it equals the total btc of the held lots; when negative (a
short), the inventory is empty and the balance is minus the short debt. -/
def balInvariant (st : WashState) : Prop :=
  if 0 ≤ st.acct_btc then st.acct_btc = sumBtc st.lots else st.lots = []

/-- The shorted account before the failing acquisition: balance −5 BTC
(outstanding short debt 5), empty inventory.  The invariant holds here. -/
def c8state0 : WashState :=
  { recent_sells := [], gains := 0, dissallowed_loss := 0, total_cost := 0,
    total_buy := 0, lots := [], acct_btc := -5 }

/-- The acquisition time. -/
def c8ts : Timestamp := ⟨2020, 6, 1, 0, 0, 0⟩

/-- The state after a direct acquisition of 10 BTC (for $100) on the shorted
account. -/
def c8state1 : WashState := applyAcquisition c8ts c8state0 10 (-100) 7 true

/-- The state the code actually produces for the C8 scenario: the whole
10 BTC lot is held while the balance is 5. -/
def c8expected : WashState :=
  { recent_sells := [], gains := 0, dissallowed_loss := 0,
    total_cost := 100, total_buy := 100,
    lots := [{ timestamp := c8ts, btc := 10, usd := 100,
               transaction := 7, dissallowed_loss := 0 }],
    acct_btc := -5 + 10 }

/-- C8: the balance invariant is violated by the acquisition branch.
Because `account_btc` is incremented *before* `push_lot` splits the incoming
lot by the negated balance, the post-increment balance 5 makes `push_lot`
hold the entire 10 BTC lot instead of using 5 BTC to cover the short:
afterwards `account_btc = 5` but the inventory holds 10 BTC, so
`account_btc[a] = Σ lots[a].btc + short debt` fails.  (The transfer branch
orders the two steps the other way round, which preserves the invariant.) -/
theorem C8_codeBug :
    balInvariant c8state0
    ∧ c8state1.acct_btc = 5
    ∧ sumBtc c8state1.lots = 10
    ∧ ¬ balInvariant c8state1 := by
  have h1 : c8state1 = c8expected := by
    norm_num [c8state1, c8expected, applyAcquisition, washLoop_nil, push_lot, Lot.split,
      c8state0, WashState.mk.injEq, Lot.mk.injEq]
  refine ⟨by norm_num [balInvariant, c8state0], ?_, ?_, ?_⟩
  · rw [h1]; norm_num [c8expected]
  · rw [h1]; norm_num [c8expected, sumBtc]
  · rw [h1]; norm_num [c8expected, balInvariant, sumBtc]

/-- `split` with a non-positive amount returns `(None, self)`. -/
theorem split_nonpos (l : Lot) (n : ℚ) (h : n ≤ 0) : l.split n = (none, some l) := by
  simp [Lot.split, h]

/-- `split` at the lot's full (positive) amount returns `(self, None)`. -/
theorem split_self (l : Lot) (h : 0 < l.btc) : l.split l.btc = (some l, none) := by
  simp [Lot.split, not_le.mpr h]

/-- C1 (amended): one iteration of the wash loop on a pair `(rs, rsb)` that
is within the 30-day window, with a buy of the same size as the pair and a
non-negative account balance.  The pair is dropped with no adjustment
exactly when `rsb.usd < rs.usd` (the recorded sale was NOT at a loss);
otherwise `loss = rsb.usd − rs.usd ≥ 0` is added to `gains` and
`dissallowed_loss`, assigned to the wash buy's `dissallowed_loss`, added to
its `usd`, and the wash buy is deposited into the account's inventory while
`total_cost` grows by the pre-wash `buy.usd`. -/
theorem C1_amended (now : Timestamp) (st : WashState) (buy rs rsb : Lot)
    (rest : List (Lot × Lot))
    (hq : st.recent_sells = (rs, rsb) :: rest)
    (hW : ¬(rs.timestamp.mktime < now.mktime - 30*24*60*60))
    (hpos : 0 < buy.btc)
    (hbtc : buy.btc = rs.btc) (hbb : rsb.btc = rs.btc)
    (hacct : 0 ≤ st.acct_btc) :
    (washIter now st buy = ({ st with recent_sells := rest }, some buy) ↔ rsb.usd < rs.usd)
    ∧ (rs.usd ≤ rsb.usd →
        washIter now st buy
          = ({ st with
                recent_sells := rest,
                gains := st.gains + (rsb.usd - rs.usd),
                dissallowed_loss := st.dissallowed_loss + (rsb.usd - rs.usd),
                total_cost := st.total_cost + buy.usd,
                lots := st.lots ++ [{ buy with
                                       usd := buy.usd + (rsb.usd - rs.usd),
                                       dissallowed_loss := rsb.usd - rs.usd }] },
             none)) := by
  have hrs : 0 < rs.btc := hbtc ▸ hpos
  have hrsb : 0 < rsb.btc := hbb ▸ hrs
  have hsp : rs.split buy.btc = (some rs, none) := by
    rw [hbtc]; exact split_self rs hrs
  have hspb : rsb.split buy.btc = (some rsb, none) := by
    rw [hbtc, ← hbb]; exact split_self rsb hrsb
  have hspbuy : buy.split rs.btc = (some buy, none) := by
    rw [← hbtc]; exact split_self buy hpos
  obtain ⟨q, g, dl, tc, tb, lo, ab⟩ := st
  simp only at hq hacct
  subst hq
  by_cases h2 : rsb.usd < rs.usd
  · have hres : washIter now ⟨(rs, rsb) :: rest, g, dl, tc, tb, lo, ab⟩ buy
        = (⟨rest, g, dl, tc, tb, lo, ab⟩, some buy) := by
      simp only [washIter]
      rw [if_neg hW, if_pos h2]
    exact ⟨iff_of_true hres h2, fun hle => absurd h2 (not_lt.mpr hle)⟩
  · have hz : ∀ l : Lot, l.split (-ab) = (none, some l) :=
      fun l => split_nonpos l _ (neg_nonpos.mpr hacct)
    have hres : washIter now ⟨(rs, rsb) :: rest, g, dl, tc, tb, lo, ab⟩ buy
        = (⟨rest, g + (rsb.usd - rs.usd), dl + (rsb.usd - rs.usd),
            tc + buy.usd, tb,
            lo ++ [{ buy with
                      usd := buy.usd + (rsb.usd - rs.usd),
                      dissallowed_loss := rsb.usd - rs.usd }], ab⟩, none) := by
      simp only [washIter]
      rw [if_neg hW, if_neg h2]
      simp only [hsp, hspb, hspbuy, push_lot, hz]
      simp only [WashState.mk.injEq, Prod.mk.injEq, and_true, true_and]
      constructor <;> ring
    refine ⟨iff_of_false ?_ h2, fun _ => hres⟩
    intro hEq
    rw [hres] at hEq
    simp at hEq

/-- Time of the acquisition triggering the wash check. -/
def c1ts : Timestamp := ⟨2020, 5, 1, 0, 0, 0⟩

/-- The recorded sell lot: 1 BTC sold for $50 (at the acquisition instant,
so within the 30-day window). -/
def c1rs : Lot := { timestamp := c1ts, btc := 1, usd := 50, transaction := 1, dissallowed_loss := 0 }

/-- The matching buy lot the sold coins came from: basis $100, so the sale
was at a $50 loss and `rs_buy.usd ≥ rs_sell.usd` holds. -/
def c1rsb : Lot := { timestamp := ⟨2020, 4, 20, 0, 0, 0⟩, btc := 1, usd := 100, transaction := 2, dissallowed_loss := 0 }

/-- The incoming buy of 1 BTC for $200. -/
def c1buy : Lot := { timestamp := c1ts, btc := 1, usd := 200, transaction := 3, dissallowed_loss := 0 }

/-- Replay state at the acquisition: one recent-sell pair, zero aggregates,
empty inventory, balance 1. -/
def c1state : WashState :=
  { recent_sells := [(c1rs, c1rsb)], gains := 0, dissallowed_loss := 0,
    total_cost := 0, total_buy := 0, lots := [], acct_btc := 1 }

/-- C1: counterexample to the claim as stated.  The popped pair is within the
window and has `rs_buy.usd = 100 ≥ 50 = rs_sell.usd`, so the claim says it is
dropped with no wash adjustment; the code instead performs the wash
adjustment: `dissallowed_loss` becomes 50 and the buy is fully consumed. -/
theorem C1_counterexample :
    ¬(c1rs.timestamp.mktime < c1ts.mktime - 30*24*60*60)
    ∧ c1rs.usd ≤ c1rsb.usd
    ∧ (washIter c1ts c1state c1buy).1.dissallowed_loss = 50
    ∧ (washIter c1ts c1state c1buy).1.dissallowed_loss ≠ c1state.dissallowed_loss
    ∧ (washIter c1ts c1state c1buy).2 = none := by
  have hW : ¬(c1rs.timestamp.mktime < c1ts.mktime - 30*24*60*60) := by
    simp only [c1rs]
    omega
  have hsp : c1rs.split c1buy.btc = (some c1rs, none) := by
    norm_num [Lot.split, c1rs, c1buy]
  have hspb : c1rsb.split c1buy.btc = (some c1rsb, none) := by
    norm_num [Lot.split, c1rsb, c1buy]
  have hspbuy : c1buy.split c1rs.btc = (some c1buy, none) := by
    norm_num [Lot.split, c1rs, c1buy]
  have hz : ∀ l : Lot, l.split (-1) = (none, some l) :=
    fun l => split_nonpos l (-1) (by norm_num)
  have hres : washIter c1ts c1state c1buy
      = (⟨[], 50, 50, 200, 0,
          [{ timestamp := c1ts, btc := 1, usd := 250, transaction := 3,
             dissallowed_loss := 50 }], 1⟩, none) := by
    simp only [washIter, c1state]
    rw [if_neg hW, if_neg (by norm_num [c1rs, c1rsb] : ¬(c1rsb.usd < c1rs.usd))]
    simp only [hsp, hspb, hspbuy, push_lot, hz]
    norm_num [WashState.mk.injEq, Lot.mk.injEq, Prod.mk.injEq, c1rs, c1rsb, c1buy]
  refine ⟨hW, by norm_num [c1rs, c1rsb], ?_, ?_, ?_⟩
  · rw [hres]
  · rw [hres]; norm_num [c1state]
  · rw [hres]

/-- Witness for `C1_amended` at the concrete loss pair of the
counterexample's scenario. -/
theorem C1_witness :
    (c1state.recent_sells = (c1rs, c1rsb) :: []
      ∧ ¬(c1rs.timestamp.mktime < c1ts.mktime - 30*24*60*60)
      ∧ 0 < c1buy.btc ∧ c1buy.btc = c1rs.btc ∧ c1rsb.btc = c1rs.btc
      ∧ 0 ≤ c1state.acct_btc)
    ∧ ((washIter c1ts c1state c1buy
          = ({ c1state with recent_sells := [] }, some c1buy) ↔ c1rsb.usd < c1rs.usd)
      ∧ (c1rs.usd ≤ c1rsb.usd →
          washIter c1ts c1state c1buy
            = ({ c1state with
                  recent_sells := [],
                  gains := c1state.gains + (c1rsb.usd - c1rs.usd),
                  dissallowed_loss := c1state.dissallowed_loss + (c1rsb.usd - c1rs.usd),
                  total_cost := c1state.total_cost + c1buy.usd,
                  lots := c1state.lots ++ [{ c1buy with
                                              usd := c1buy.usd + (c1rsb.usd - c1rs.usd),
                                              dissallowed_loss := c1rsb.usd - c1rs.usd }] },
               none))) :=
  ⟨⟨rfl, by simp only [c1rs]; omega, by norm_num [c1buy], rfl, rfl, by norm_num [c1state]⟩,
   C1_amended c1ts c1state c1buy c1rs c1rsb [] rfl
     (by simp only [c1rs]; omega) (by norm_num [c1buy]) rfl rfl (by norm_num [c1state])⟩

/-- `RunningReport.deltas`'s fold: walk the (sorted) bucket list carrying the
previous bucket's cumulative row (`last`, initially all zeros via
`last.get(key, 0)`); rows are total functions on the shared column set. -/
def deltasAux {K C : Type} (last : C → ℚ) : List (K × (C → ℚ)) → List (K × (C → ℚ))
  | [] => []
  | (k, row) :: rest => (k, fun c => row c - last c) :: deltasAux row rest

/-- `RunningReport.deltas()`: per-bucket differences of the cumulative rows,
in bucket order (the input list is `sorted(self.data)`). -/
def RunningReport.deltas {K C : Type} (data : List (K × (C → ℚ))) : List (K × (C → ℚ)) :=
  deltasAux (fun _ => 0) data

/-- Modelled from the spec's words: "deltas() produces, in bucket order, the
per-bucket difference from the previous bucket's cumulative values" — each
bucket paired with its predecessor row (zero before the first). -/
def deltasSpec {K C : Type} (data : List (K × (C → ℚ))) : List (K × (C → ℚ)) :=
  List.zipWith (fun cur prev => (cur.1, fun c => cur.2 c - prev c)) data
    ((fun _ => 0) :: data.map Prod.snd)

/-- The fold agrees with the zip-with-predecessor description. -/
theorem deltasAux_eq_zipWith {K C : Type} (data : List (K × (C → ℚ))) :
    ∀ last : C → ℚ,
      deltasAux last data
        = List.zipWith (fun cur prev => (cur.1, fun c => cur.2 c - prev c)) data
            (last :: data.map Prod.snd) := by
  induction data with
  | nil => intro last; rfl
  | cons p rest ih =>
    intro last
    obtain ⟨k, row⟩ := p
    simp only [deltasAux, List.map_cons, List.zipWith_cons_cons]
    rw [ih row]

/-- Telescoping: the column sums of the fold's output. -/
theorem deltasAux_sum {K C : Type} (data : List (K × (C → ℚ))) :
    ∀ (last : C → ℚ) (c : C),
      ((deltasAux last data).map (fun p => p.2 c)).sum
        = (data.map (fun p => p.2 c)).getLastD (last c) - last c := by
  induction data with
  | nil => intro last c; simp [deltasAux]
  | cons p rest ih =>
    intro last c
    obtain ⟨k, row⟩ := p
    simp only [deltasAux, List.map_cons, List.sum_cons, List.getLastD_cons]
    rw [ih row c]
    ring

/-- C7: for every report whose rows share the same column set, `deltas()`
produces, in bucket order, each bucket's value minus the previous bucket's
cumulative value, and for every column the deltas sum to the last bucket's
cumulative value (0 for an empty report). -/
theorem C7_confirmed {K C : Type} (data : List (K × (C → ℚ))) :
    RunningReport.deltas data = deltasSpec data
    ∧ ∀ c : C,
        ((RunningReport.deltas data).map (fun p => p.2 c)).sum
          = (data.map (fun p => p.2 c)).getLastD 0 := by
  constructor
  · exact deltasAux_eq_zipWith data (fun _ => 0)
  · intro c
    have h := deltasAux_sum data (fun _ => 0) c
    simpa using h

/-- `short_id(id)`: `id.rsplit(':', 1)[0]` — strip the trailing `:<counter>`
segment (everything from the last colon on); identity when there is no
colon. -/
def short_id (id : String) : String :=
  match id.data.reverse.dropWhile (fun c => c != ':') with
  | [] => id
  | _ :: rest => String.mk rest.reverse

/-- The alias map built in `FuzzyDict.__init__`, processing stored keys in
insertion order: first key with a given alias is recorded, a second key with
the same alias overwrites the entry with `None` (ambiguity). -/
def buildAliases (fn : String → String) :
    List String → (String → Option (Option String)) → (String → Option (Option String))
  | [], m => m
  | key :: rest, m =>
    let als := fn key
    let m2 : String → Option (Option String) :=
      match m als with
      | some _ => fun a => if a = als then some none else m a
      | none => fun a => if a = als then some (some key) else m a
    buildAliases fn rest m2

/-- The alias map of a `FuzzyDict` over the given stored keys. -/
def aliasesOf (fn : String → String) (keys : List String) : String → Option (Option String) :=
  buildAliases fn keys (fun _ => none)

/-- `self._aliases.get(x) is not None`. -/
def hitKey : Option (Option String) → Bool
  | some (some _) => true
  | _ => false

/-- `FuzzyDict.__contains__`: exact hit in the stored keys, or an
unambiguous alias hit on the canonicalized query. -/
def fuzzyContainsB (fn : String → String) (keys : List String) (k : String) : Bool :=
  keys.contains k || hitKey (aliasesOf fn keys (fn k))

/-- What the alias map holds at one alias, as a function of the filtered
occurrence list and the previously accumulated entry. -/
def aliasCombine (prev : Option (Option String)) : List String → Option (Option String)
  | [] => prev
  | [k] => match prev with
           | none => some (some k)
           | some _ => some none
  | _ :: _ :: _ => some none

/-- `aliasCombine` ignores `prev` on lists of length at least two. -/
theorem aliasCombine_cons_cons (prev : Option (Option String)) (k1 k2 : String)
    (l : List String) : aliasCombine prev (k1 :: k2 :: l) = some none := rfl

/-- A non-empty occurrence list with an already-set entry is ambiguous. -/
theorem aliasCombine_cons_some (v : Option String) (k : String) (l : List String) :
    aliasCombine (some v) (k :: l) = some none := by
  cases l <;> rfl

/-- Characterization of the `FuzzyDict` alias construction: the entry at one
alias is determined by the stored keys canonicalizing to it. -/
theorem buildAliases_spec (fn : String → String) :
    ∀ (keys : List String) (m : String → Option (Option String)) (a : String),
      buildAliases fn keys m a = aliasCombine (m a) (keys.filter (fun k => fn k == a)) := by
  intro keys
  induction keys with
  | nil => intro m a; rfl
  | cons key rest ih =>
    intro m a
    rw [List.filter_cons]
    by_cases hk : fn key = a
    · rw [if_pos (by simpa using hk)]
      show buildAliases fn rest _ a = _
      rw [ih]
      subst hk
      cases hma : m (fn key) with
      | some v =>
        dsimp only
        rw [if_pos rfl]
        cases hrf : rest.filter (fun k => fn k == fn key) with
        | nil => rfl
        | cons r1 rs => rw [aliasCombine_cons_some, aliasCombine_cons_some]
      | none =>
        dsimp only
        rw [if_pos rfl]
        cases hrf : rest.filter (fun k => fn k == fn key) with
        | nil => rfl
        | cons r1 rs => rw [aliasCombine_cons_some, aliasCombine_cons_cons]
    · rw [if_neg (by simpa using hk)]
      show buildAliases fn rest _ a = _
      rw [ih]
      have hne : a ≠ fn key := fun hc => hk hc.symm
      cases hmk : m (fn key) with
      | some v =>
        dsimp only
        rw [if_neg hne]
      | none =>
        dsimp only
        rw [if_neg hne]

/-- `get(...) is not None` holds exactly for an unambiguous alias entry. -/
theorem hitKey_iff (o : Option (Option String)) :
    hitKey o = true ↔ ∃ k', o = some (some k') := by
  cases o with
  | none => simp [hitKey]
  | some i =>
    cases i with
    | none => simp [hitKey]
    | some k => simp [hitKey]

/-- A fresh alias entry is an unambiguous hit for `k'` iff exactly the
occurrence list `[k']` produced it. -/
theorem aliasCombine_none_eq_some_some (l : List String) (k' : String) :
    aliasCombine none l = some (some k') ↔ l = [k'] := by
  match l with
  | [] => simp [aliasCombine]
  | [k] => simp [aliasCombine]
  | k1 :: k2 :: rest => simp [aliasCombine]

/-- Forward direction of the singleton-filter characterization. -/
theorem filter_eq_singleton_mp (p : String → Bool) (l : List String) (x : String)
    (h : l.filter p = [x]) :
    x ∈ l ∧ p x = true ∧ ∀ y ∈ l, p y = true → y = x := by
  have hx : x ∈ l.filter p := by rw [h]; exact List.mem_singleton_self x
  obtain ⟨hmem, hpx⟩ := List.mem_filter.mp hx
  refine ⟨hmem, hpx, fun y hy hpy => ?_⟩
  have hyf : y ∈ l.filter p := List.mem_filter.mpr ⟨hy, hpy⟩
  rw [h] at hyf
  simpa using hyf

/-- Reverse direction of the singleton-filter characterization (needs
distinct stored keys, as in a Python dict). -/
theorem filter_eq_singleton_of (p : String → Bool) :
    ∀ (l : List String), l.Nodup → ∀ x, x ∈ l → p x = true →
      (∀ y ∈ l, p y = true → y = x) → l.filter p = [x] := by
  intro l
  induction l with
  | nil => intro _ x hx; cases hx
  | cons a t ih =>
    intro hnd x hx hpx huniq
    rw [List.filter_cons]
    rcases List.mem_cons.mp hx with rfl | hx2
    · rw [if_pos hpx]
      have hft : t.filter p = [] := by
        rw [List.filter_eq_nil_iff]
        intro y hy hpy
        exact (List.nodup_cons.mp hnd).1 ((huniq y (List.mem_cons_of_mem _ hy) hpy) ▸ hy)
      rw [hft]
    · have hpa : ¬ p a = true := fun hpa =>
        (List.nodup_cons.mp hnd).1 ((huniq a (List.mem_cons_self a t) hpa) ▸ hx2)
      rw [if_neg hpa]
      exact ih (List.nodup_cons.mp hnd).2 x hx2 hpx
        (fun y hy hpy => huniq y (List.mem_cons_of_mem _ hy) hpy)

/-- C9: a `FuzzyDict` lookup by key `k` succeeds exactly when `k` is itself a
stored key, or exactly one stored key has the same short form as `k`; and
when two distinct stored keys share the short form of a query that is not
itself stored, the lookup fails. -/
theorem C9_confirmed :
    (∀ (keys : List String) (k : String), keys.Nodup →
      (fuzzyContainsB short_id keys k = true ↔
        k ∈ keys ∨ ∃ k', k' ∈ keys ∧ short_id k' = short_id k
          ∧ ∀ k'', k'' ∈ keys → short_id k'' = short_id k → k'' = k'))
    ∧ (∀ (keys : List String) (k k1 k2 : String), keys.Nodup →
        k1 ∈ keys → k2 ∈ keys → k1 ≠ k2 →
        short_id k1 = short_id k → short_id k2 = short_id k →
        k ∉ keys → fuzzyContainsB short_id keys k = false) := by
  have main : ∀ (keys : List String) (k : String), keys.Nodup →
      (fuzzyContainsB short_id keys k = true ↔
        k ∈ keys ∨ ∃ k', k' ∈ keys ∧ short_id k' = short_id k
          ∧ ∀ k'', k'' ∈ keys → short_id k'' = short_id k → k'' = k') := by
    intro keys k hnd
    unfold fuzzyContainsB aliasesOf
    rw [Bool.or_eq_true, buildAliases_spec]
    constructor
    · rintro (hmem | hhit)
      · exact Or.inl (by simpa using hmem)
      · right
        obtain ⟨k', hk'⟩ := (hitKey_iff _).mp hhit
        rw [aliasCombine_none_eq_some_some] at hk'
        obtain ⟨h1, h2, h3⟩ := filter_eq_singleton_mp _ _ _ hk'
        exact ⟨k', h1, by simpa using h2,
          fun k'' hmem hsid => h3 k'' hmem (by simpa using hsid)⟩
    · rintro (hmem | ⟨k', h1, h2, h3⟩)
      · exact Or.inl (by simpa using hmem)
      · right
        rw [hitKey_iff]
        refine ⟨k', ?_⟩
        rw [aliasCombine_none_eq_some_some]
        exact filter_eq_singleton_of _ keys hnd k' h1 (by simpa using h2)
          (fun y hy hpy => h3 y hy (by simpa using hpy))
  refine ⟨main, ?_⟩
  intro keys k k1 k2 hnd h1 h2 hne hs1 hs2 hk
  cases hval : fuzzyContainsB short_id keys k
  · rfl
  · exfalso
    rcases (main keys k hnd).mp hval with hmem | ⟨k', _, _, huniq⟩
    · exact hk hmem
    · exact hne ((huniq k1 h1 hs1).trans (huniq k2 h2 hs2).symm)

/-- Witness for `C9_confirmed`: with stored keys `a:1`, `a:2` the short-key
query `a:3` (short form `a`, shared by both stored keys) fails. -/
theorem C9_witness :
    ((["a:1", "a:2"] : List String).Nodup
      ∧ short_id "a:1" = short_id "a:3" ∧ short_id "a:2" = short_id "a:3"
      ∧ "a:3" ∉ (["a:1", "a:2"] : List String))
    ∧ fuzzyContainsB short_id ["a:1", "a:2"] "a:3" = false :=
  ⟨⟨by decide, by decide, by decide, by decide⟩,
   C9_confirmed.2 ["a:1", "a:2"] "a:3" "a:1" "a:2" (by decide) (by decide) (by decide)
     (by decide) (by decide) (by decide) (by decide)⟩

/-- The flag resolution in `CoinbaseParser.parse_file` (applied to the
already-lowercased option string, after the one-time `auto` rewrite to
`true`/`false`): the source sets the local `ignore_old_coinbase` to `True`
in BOTH the `('true', 'yes')` and the `('false', 'no')` branches, and raises
on anything else. -/
def ignore_old_coinbase_flag (s : String) : Option Bool :=
  if s = "true" ∨ s = "yes" then some true
  else if s = "false" ∨ s = "no" then some true
  else none

/-- `CoinbaseParser.parse_file` on an old-style CSV whose rows are `rows`:
yields the rows only when the resolved flag is false (`none` models the
`ValueError` on an unrecognized value). -/
def coinbase_parse_file {α : Type} (flag : String) (rows : List α) : Option (List α) :=
  match ignore_old_coinbase_flag flag with
  | some ioc => if ioc then some [] else some rows
  | none => none

/-- C6: the code bug.  With `ignore_old_coinbase` resolving to `false` (or
`no`) the claim says the file's transactions are yielded; the code resolves
every recognized value — including `false` and `no` — to ignore, so the old
CSV rows are never yielded. -/
theorem C6_codeBug :
    (∀ rows : List ℕ,
      coinbase_parse_file "false" rows = some []
      ∧ coinbase_parse_file "no" rows = some []
      ∧ coinbase_parse_file "true" rows = some []
      ∧ coinbase_parse_file "yes" rows = some [])
    ∧ (∀ (s : String) (b : Bool), ignore_old_coinbase_flag s = some b → b = true) := by
  constructor
  · exact fun rows => ⟨rfl, rfl, rfl, rfl⟩
  · intro s b h
    unfold ignore_old_coinbase_flag at h
    split_ifs at h <;> simp_all

/-- Witness for `C6_codeBug` at the failing input `false`. -/
theorem C6_witness :
    (ignore_old_coinbase_flag "false" = some true)
    ∧ coinbase_parse_file "false" [0, 1] = some [] ∧ true = true :=
  ⟨rfl, (C6_codeBug.1 [0, 1]).1, C6_codeBug.2 "false" true rfl⟩
